import Mathlib

/-!
A shallow embedding of the nlgeval orchestration layer
(`nlgeval/__init__.py`): the metric registry with its cascading
omission rule, the corpus alignment (trimming, transposition of
parallel reference sources), the evaluation loops of the legacy
module-level functions and of the `NLGEval` class, and the resource
release behavior, together with theorems settling the specification
claims.

External scorers (`Bleu`, `Meteor`, `Rouge`, `Cider`, `Spice`) are out
of scope of the layer; they are modelled as abstract behavior
functions satisfying (or not) the uniform scoring contract.  The
evaluation loops are instrumented with an event trace recording each
`compute_score` and `close` invocation, so that ordering and release
properties can be stated.
-/

/-- Whitespace characters removed by Python `str.strip()` (ASCII part). -/
def isPySpace (c : Char) : Bool :=
  c == ' ' || c == '\t' || c == '\n' || c == '\r' ||
  c == Char.ofNat 11 || c == Char.ofNat 12

/-- Strip leading and trailing whitespace from a character list. -/
def stripChars (l : List Char) : List Char :=
  ((l.dropWhile isPySpace).reverse.dropWhile isPySpace).reverse

/-- Embedding of `_strip` / Python `str.strip()`. -/
def pyStrip (s : String) : String :=
  String.mk (stripChars s.data)

/-- Embedding of Python `zip(*ll)`: transpose parallel sequences,
truncating to the shortest one. -/
def pyZipAll {α : Type} : List (List α) → List (List α)
  | [] => []
  | [l] => l.map (fun x => [x])
  | l :: m :: rest => List.zipWith (fun x t => x :: t) l (pyZipAll (m :: rest))

/-- The item at position `j` of every parallel source: `some` of the
column when every source has a `j`-th element, `none` otherwise (used
to state what the transposition keeps and drops). -/
def colAt {α : Type} (ll : List (List α)) (j : Nat) : Option (List α) :=
  match ll with
  | [] => some []
  | s :: rest => (s[j]?).bind (fun x => (colAt rest j).map (fun xs => x :: xs))

/-- The kind of an external scorer instance, with the `n` argument of
`Bleu(n)`. -/
inductive ScorerKind where
  | bleu (n : Nat)
  | meteor
  | rouge
  | cider
  | spice
  deriving DecidableEq

/-- The `method` component of a scorer pair: either a list of report
names (vector metric) or a single report name (scalar metric). -/
inductive Method where
  | names (ms : List String)
  | name (m : String)
  deriving DecidableEq

/-- One `(scorer, method)` pair of the scorer list. -/
structure MetricDescriptor where
  scorer : ScorerKind
  method : Method
  deriving DecidableEq

/-- The name `'Bleu_{}'.format(i)`. -/
def bleuName (i : Nat) : String :=
  "Bleu_" ++ toString i

/-- The list `['Bleu_{}'.format(j) for j in range(1, n + 1)]`. -/
def bleuNames (n : Nat) : List String :=
  (List.range' 1 n).map bleuName

/-- The Bleu part of `NLGEval.load_scorers`: scan tiers 1..4 in order,
stop at the first omitted tier. -/
def bleuScorers (toOmit : List String) : List MetricDescriptor :=
  match (List.range' 1 4).find? (fun i => decide (bleuName i ∈ toOmit)) with
  | some i =>
      if 1 < i then [⟨ScorerKind.bleu (i - 1), Method.names (bleuNames (i - 1))⟩]
      else []
  | none => [⟨ScorerKind.bleu 4, Method.names ["Bleu_1", "Bleu_2", "Bleu_3", "Bleu_4"]⟩]

/-- The scalar part of `NLGEval.load_scorers`: the four `if ... not in
self.metrics_to_omit` appends. -/
def scalarScorers (toOmit : List String) : List MetricDescriptor :=
  (if "METEOR" ∈ toOmit then [] else [⟨ScorerKind.meteor, Method.name "METEOR"⟩]) ++
  (if "ROUGE_L" ∈ toOmit then [] else [⟨ScorerKind.rouge, Method.name "ROUGE_L"⟩]) ++
  (if "CIDEr" ∈ toOmit then [] else [⟨ScorerKind.cider, Method.name "CIDEr"⟩]) ++
  (if "SPICE" ∈ toOmit then [] else [⟨ScorerKind.spice, Method.name "SPICE"⟩])

/-- Embedding of `NLGEval.load_scorers`. -/
def NLGEval.load_scorers (toOmit : List String) : List MetricDescriptor :=
  bleuScorers toOmit ++ scalarScorers toOmit

/-- Embedding of `NLGEval.valid_metrics`. -/
def NLGEval.valid_metrics : List String :=
  ["Bleu_1", "Bleu_2", "Bleu_3", "Bleu_4", "METEOR", "ROUGE_L", "CIDEr", "SPICE"]

/-- Embedding of `NLGEval.__init__`: validate the omission set against
the catalog (the `assert` on the set difference), then build the
scorer list.  An assertion failure is an `Except.error` carrying the
offending names. -/
def NLGEval.init (metricsToOmit : Option (List String)) :
    Except (List String) (List MetricDescriptor) :=
  let toOmit := metricsToOmit.getD []
  let invalid := toOmit.filter (fun m => decide (m ∉ NLGEval.valid_metrics))
  if invalid.length = 0 then Except.ok (NLGEval.load_scorers toOmit)
  else Except.error invalid

/-- The fixed ordered list of the four scalar metric descriptors of the
catalog (used to state the omission-cascade claim). -/
def scalarCatalog : List MetricDescriptor :=
  [⟨ScorerKind.meteor, Method.name "METEOR"⟩,
   ⟨ScorerKind.rouge, Method.name "ROUGE_L"⟩,
   ⟨ScorerKind.cider, Method.name "CIDEr"⟩,
   ⟨ScorerKind.spice, Method.name "SPICE"⟩]

/-- The report name of a scalar descriptor. -/
def descName (d : MetricDescriptor) : String :=
  match d.method with
  | Method.names _ => ""
  | Method.name m => m

/-- A Python value returned as the aggregate of `compute_score`: a
single score or a list of scores. -/
inductive PyVal (α : Type) where
  | num (a : α)
  | vals (l : List α)
  deriving DecidableEq

/-- The `ret_scores` dictionary: an insertion-ordered association list. -/
abbrev PyDict (α : Type) := List (String × PyVal α)

/-- The keys of a dictionary. -/
def dictKeys {α : Type} (d : PyDict α) : List String :=
  d.map Prod.fst

/-- Python `d[k] = v`: overwrite in place if present, append otherwise. -/
def dictInsert {α : Type} (d : PyDict α) (k : String) (v : PyVal α) : PyDict α :=
  if k ∈ dictKeys d then d.map (fun p => if p.1 = k then (k, v) else p)
  else d ++ [(k, v)]

/-- The loop `for sc, m in zip(score, method): ret_scores[m] = sc`. -/
def insertZip {α : Type} (d : PyDict α) (pairs : List (α × String)) : PyDict α :=
  pairs.foldl (fun acc p => dictInsert acc p.2 (PyVal.num p.1)) d

/-- Errors an evaluation call can end with: an exception from a
scorer, the `TypeError` of zipping a non-list score, or an `assert`
failure. -/
inductive EvalErr (ε : Type) where
  | scorer (e : ε)
  | typeError
  | assertionError
  deriving DecidableEq

/-- Observable events of an evaluation call. -/
inductive Event where
  | score (k : ScorerKind)
  | close (k : ScorerKind)
  deriving DecidableEq

/-- The behavior of the external scorers: what `compute_score` returns
(aggregate only; the per-item component is discarded by the layer) or
raises, as a function of the scorer kind and the two alignment maps. -/
abbrev Behavior (ε α : Type) :=
  ScorerKind → List (List String) → List (List String) → Except ε (PyVal α)

/-- The body of one loop iteration after `compute_score`: dispatch on
`isinstance(method, list)`; zipping a non-list score is a `TypeError`
(`none`). -/
def applyMethod {α : Type} (acc : PyDict α) (method : Method) (agg : PyVal α) :
    Option (PyDict α) :=
  match method with
  | Method.names ms =>
      match agg with
      | PyVal.vals scores => some (insertZip acc (scores.zip ms))
      | PyVal.num _ => none
  | Method.name m => some (dictInsert acc m agg)

/-- The scoring loop of the `NLGEval` methods (no `close` anywhere),
instrumented with the event trace. -/
def runScorers {ε α : Type} (beh : Behavior ε α) (refs hyps : List (List String)) :
    List MetricDescriptor → PyDict α → List Event →
    List Event × Except (EvalErr ε) (PyDict α)
  | [], acc, tr => (tr, Except.ok acc)
  | d :: rest, acc, tr =>
    match beh d.scorer refs hyps with
    | Except.error e => (tr ++ [Event.score d.scorer], Except.error (EvalErr.scorer e))
    | Except.ok agg =>
      match applyMethod acc d.method agg with
      | none => (tr ++ [Event.score d.scorer], Except.error EvalErr.typeError)
      | some acc2 => runScorers beh refs hyps rest acc2 (tr ++ [Event.score d.scorer])

/-- The scoring loop of the legacy module-level functions: after a
successful iteration, `if isinstance(scorer, Meteor): scorer.close()`. -/
def runScorersLegacy {ε α : Type} (beh : Behavior ε α) (refs hyps : List (List String)) :
    List MetricDescriptor → PyDict α → List Event →
    List Event × Except (EvalErr ε) (PyDict α)
  | [], acc, tr => (tr, Except.ok acc)
  | d :: rest, acc, tr =>
    match beh d.scorer refs hyps with
    | Except.error e => (tr ++ [Event.score d.scorer], Except.error (EvalErr.scorer e))
    | Except.ok agg =>
      match applyMethod acc d.method agg with
      | none => (tr ++ [Event.score d.scorer], Except.error EvalErr.typeError)
      | some acc2 =>
        runScorersLegacy beh refs hyps rest acc2
          (if d.scorer = ScorerKind.meteor
           then tr ++ [Event.score d.scorer] ++ [Event.close ScorerKind.meteor]
           else tr ++ [Event.score d.scorer])

/-- The scorer list built afresh by the legacy module-level functions. -/
def legacyScorers : List MetricDescriptor :=
  [⟨ScorerKind.bleu 4, Method.names ["Bleu_1", "Bleu_2", "Bleu_3", "Bleu_4"]⟩,
   ⟨ScorerKind.meteor, Method.name "METEOR"⟩,
   ⟨ScorerKind.rouge, Method.name "ROUGE_L"⟩,
   ⟨ScorerKind.cider, Method.name "CIDEr"⟩,
   ⟨ScorerKind.spice, Method.name "SPICE"⟩]

/-- `refs = {0: [a.strip() for a in ref]}` of the single-pair methods. -/
def alignRefsSingle (ref : List String) : List (List String) :=
  [ref.map pyStrip]

/-- `hyps = {0: [hyp.strip()]}` of the single-pair methods. -/
def alignHypsSingle (hyp : String) : List (List String) :=
  [[pyStrip hyp]]

/-- `refs = {idx: strippedlines for ...}` built from `zip(*ref_list)`
in the batch entry points. -/
def alignRefsBatch (refList : List (List String)) : List (List String) :=
  (pyZipAll refList).map (fun refs => refs.map pyStrip)

/-- `hyps = {idx: [lines.strip()] for ...}` in the batch entry points. -/
def alignHypsBatch (hypList : List String) : List (List String) :=
  hypList.map (fun h => [pyStrip h])

/-- Embedding of the method `NLGEval.compute_individual_metrics`. -/
def NLGEval.compute_individual_metrics {ε α : Type} (scorers : List MetricDescriptor)
    (beh : Behavior ε α) (ref : List String) (hyp : String) :
    List Event × Except (EvalErr ε) (PyDict α) :=
  runScorers beh (alignRefsSingle ref) (alignHypsSingle hyp) scorers [] []

/-- Embedding of the method `NLGEval.compute_metrics`: transpose the
parallel reference sources, build both alignment maps, `assert
len(refs) == len(hyps)` before the loop. -/
def NLGEval.compute_metrics {ε α : Type} (scorers : List MetricDescriptor)
    (beh : Behavior ε α) (refList : List (List String)) (hypList : List String) :
    List Event × Except (EvalErr ε) (PyDict α) :=
  if (alignRefsBatch refList).length = (alignHypsBatch hypList).length then
    runScorers beh (alignRefsBatch refList) (alignHypsBatch hypList) scorers [] []
  else ([], Except.error EvalErr.assertionError)

/-- The backward-compatibility reference delimiter of the module-level
`compute_individual_metrics`. -/
def refDelimiter : String := "||<|>||"

/-- Embedding of the module-level `compute_individual_metrics`: a
string reference argument is split on the delimiter, each piece
trimmed; a fresh scorer list is used with the legacy loop. -/
def compute_individual_metrics {ε α : Type} (beh : Behavior ε α)
    (ref : String ⊕ List String) (hyp : String) :
    List Event × Except (EvalErr ε) (PyDict α) :=
  let refL := (match ref with
    | Sum.inl s => s.splitOn refDelimiter
    | Sum.inr l => l).map pyStrip
  runScorersLegacy beh [refL] [[pyStrip hyp]] legacyScorers [] []

/-- Embedding of the module-level `compute_metrics`, after the file
reads: `hypLines` are the lines of the hypothesis file, `refLines` the
line lists of the reference files. -/
def compute_metrics {ε α : Type} (beh : Behavior ε α)
    (hypLines : List String) (refLines : List (List String)) :
    List Event × Except (EvalErr ε) (PyDict α) :=
  if (alignRefsBatch refLines).length = (alignHypsBatch hypLines).length then
    runScorersLegacy beh (alignRefsBatch refLines) (alignHypsBatch hypLines)
      legacyScorers [] []
  else ([], Except.error EvalErr.assertionError)

/-- The declared sub-metric names of a method. -/
def methodNames : Method → List String
  | Method.names ms => ms
  | Method.name m => [m]

/-- The union (in order) of all declared sub-metric names of a scorer
list. -/
def declaredNames (scorers : List MetricDescriptor) : List String :=
  scorers.flatMap (fun d => methodNames d.method)

/-- A behavior honors the uniform scoring contract for a descriptor:
it succeeds, and a vector descriptor receives one score per declared
name. -/
def honorsContract {ε α : Type} (beh : Behavior ε α)
    (refs hyps : List (List String)) (d : MetricDescriptor) : Prop :=
  match d.method with
  | Method.names ms =>
      ∃ scores, beh d.scorer refs hyps = Except.ok (PyVal.vals scores) ∧
        scores.length = ms.length
  | Method.name _ => ∃ v, beh d.scorer refs hyps = Except.ok v

/-- Stateful scorer behavior: `compute_score` may read and update the
scorer-side state (e.g. an external process). -/
abbrev SBehavior (σ ε α : Type) :=
  ScorerKind → σ → List (List String) → List (List String) →
  Except ε (PyVal α) × σ

/-- The `NLGEval` scoring loop with scorer state threaded through the
calls (the scorer list lives across calls on one evaluator). -/
def runScorersS {σ ε α : Type} (beh : SBehavior σ ε α) (refs hyps : List (List String)) :
    List MetricDescriptor → PyDict α → σ → Except (EvalErr ε) (PyDict α) × σ
  | [], acc, st => (Except.ok acc, st)
  | d :: rest, acc, st =>
    match beh d.scorer st refs hyps with
    | (Except.error e, st2) => (Except.error (EvalErr.scorer e), st2)
    | (Except.ok agg, st2) =>
      match applyMethod acc d.method agg with
      | none => (Except.error EvalErr.typeError, st2)
      | some acc2 => runScorersS beh refs hyps rest acc2 st2

/-- The method `NLGEval.compute_individual_metrics` over stateful
scorers. -/
def NLGEval.computeIndividualMetricsS {σ ε α : Type} (scorers : List MetricDescriptor)
    (beh : SBehavior σ ε α) (ref : List String) (hyp : String) (st : σ) :
    Except (EvalErr ε) (PyDict α) × σ :=
  runScorersS beh (alignRefsSingle ref) (alignHypsSingle hyp) scorers [] st

/-- A concrete contract-honoring behavior, for witnesses. -/
def behW : Behavior Unit Int := fun k _ _ =>
  match k with
  | ScorerKind.bleu n => Except.ok (PyVal.vals (List.replicate n 0))
  | _ => Except.ok (PyVal.num 0)

/-- A concrete behavior whose Bleu scorer raises, for the release
counterexample. -/
def behErrBleu : Behavior Unit Int := fun k _ _ =>
  match k with
  | ScorerKind.bleu _ => Except.error ()
  | _ => Except.ok (PyVal.num 0)

/-- A concrete stateful behavior whose score component ignores the
state, for the determinism witness. -/
def behWS : SBehavior Nat Unit Int := fun k st _ _ =>
  (match k with
   | ScorerKind.bleu n => Except.ok (PyVal.vals (List.replicate n 0))
   | _ => Except.ok (PyVal.num 0), st + 1)

theorem dropWhile_dropWhile {α : Type} (p : α → Bool) (l : List α) :
    (l.dropWhile p).dropWhile p = l.dropWhile p := by
  induction l with
  | nil => rfl
  | cons a t ih =>
    by_cases h : p a = true
    · simp [List.dropWhile_cons, h, ih]
    · simp [List.dropWhile_cons, h]

theorem head?_dropWhile_not {α : Type} (p : α → Bool) (l : List α) {a : α}
    (h : (l.dropWhile p).head? = some a) : p a = false := by
  induction l with
  | nil => simp at h
  | cons b t ih =>
    by_cases hb : p b = true
    · rw [List.dropWhile_cons_of_pos hb] at h
      exact ih h
    · rw [List.dropWhile_cons_of_neg hb] at h
      simp at h
      subst h
      simpa using hb

theorem getLast?_dropWhile {α : Type} (p : α → Bool) (l : List α)
    (h : l.dropWhile p ≠ []) : (l.dropWhile p).getLast? = l.getLast? := by
  induction l with
  | nil => simp at h
  | cons b t ih =>
    by_cases hb : p b = true
    · rw [List.dropWhile_cons_of_pos hb] at h ⊢
      rw [ih h]
      cases t with
      | nil => simp at h
      | cons c u => rw [List.getLast?_cons_cons]
    · rw [List.dropWhile_cons_of_neg hb]

theorem dropWhile_head_eq_self {α : Type} (p : α → Bool) (l : List α)
    (h : ∀ a, l.head? = some a → p a = false) : l.dropWhile p = l := by
  cases l with
  | nil => rfl
  | cons b t =>
    have hb := h b rfl
    rw [List.dropWhile_cons_of_neg (by simp [hb])]

theorem stripChars_dropWhile (l : List Char) :
    (stripChars l).dropWhile isPySpace = stripChars l := by
  apply dropWhile_head_eq_self
  intro a ha
  unfold stripChars at ha
  rw [List.head?_reverse] at ha
  by_cases hxe : (l.dropWhile isPySpace).reverse.dropWhile isPySpace = []
  · rw [hxe] at ha
    simp at ha
  · rw [getLast?_dropWhile isPySpace (l.dropWhile isPySpace).reverse hxe] at ha
    rw [List.getLast?_eq_head?_reverse, List.reverse_reverse] at ha
    exact head?_dropWhile_not isPySpace l ha

theorem stripChars_idem (l : List Char) :
    stripChars (stripChars l) = stripChars l := by
  have key := stripChars_dropWhile l
  unfold stripChars
  unfold stripChars at key
  rw [key, List.reverse_reverse, dropWhile_dropWhile]

theorem pyStrip_idem (s : String) : pyStrip (pyStrip s) = pyStrip s := by
  show String.mk (stripChars (String.mk (stripChars s.data)).data) = _
  rw [show (String.mk (stripChars s.data)).data = stripChars s.data from rfl,
    stripChars_idem]
  rfl

/-- C6: the values stored in the single-pair Corpus Alignment are the
supplied reference and hypothesis strings with leading and trailing
whitespace stripped, and the trim is idempotent: re-trimming an
already-trimmed string returns it unchanged. -/
theorem claim_C6_trimming_idempotent :
    (∀ ref : List String, alignRefsSingle ref = [ref.map pyStrip]) ∧
    (∀ hyp : String, alignHypsSingle hyp = [[pyStrip hyp]]) ∧
    (∀ s : String, pyStrip (pyStrip s) = pyStrip s) :=
  ⟨fun _ => rfl, fun _ => rfl, pyStrip_idem⟩

/-- C9: the module-level `compute_individual_metrics`, given a single
string as the reference argument, splits it on the literal delimiter
`'||<|>||'` and trims each piece to form the Reference Set, while the
`NLGEval` method of the same name performs no such split and only
trims the members of the given sequence. -/
theorem claim_C9_delimiter_split {ε α : Type} (beh : Behavior ε α) (s hyp : String) :
    compute_individual_metrics beh (Sum.inl s) hyp =
      runScorersLegacy beh [(s.splitOn "||<|>||").map pyStrip] [[pyStrip hyp]]
        legacyScorers [] [] ∧
    ∀ (scorers : List MetricDescriptor) (l : List String),
      NLGEval.compute_individual_metrics scorers beh l hyp =
        runScorers beh [l.map pyStrip] [[pyStrip hyp]] scorers [] [] :=
  ⟨rfl, fun _ _ => rfl⟩

/-- C7: when every catalog name is omitted the constructed Active
Metric List is empty, and single-pair evaluation on any valid input
returns an empty Score Report without raising an error. -/
theorem claim_C7_empty_metric_list :
    NLGEval.init (some NLGEval.valid_metrics) = Except.ok [] ∧
    ∀ (ε α : Type) (beh : Behavior ε α) (ref : List String) (hyp : String),
      NLGEval.compute_individual_metrics ([] : List MetricDescriptor) beh ref hyp =
        ([], Except.ok []) := by
  constructor
  · rfl
  · intro ε α beh ref hyp
    rfl

/-- C4: constructing an `NLGEval` with an omission set containing a
name outside the closed catalog fails the construction-time assertion:
the constructor returns a configuration error (carrying the
unrecognized names) and never a scorer list, so no partial
configuration is produced and no scorer is invoked. -/
theorem claim_C4_unrecognized_omission (toOmit : List String) (m : String)
    (hm : m ∈ toOmit) (hv : m ∉ NLGEval.valid_metrics) :
    NLGEval.init (some toOmit) =
      Except.error (toOmit.filter (fun x => decide (x ∉ NLGEval.valid_metrics))) ∧
    ∀ l, NLGEval.init (some toOmit) ≠ Except.ok l := by
  have hmem : m ∈ toOmit.filter (fun x => decide (x ∉ NLGEval.valid_metrics)) := by
    rw [List.mem_filter]
    exact ⟨hm, by simpa using hv⟩
  have hne : (toOmit.filter (fun x => decide (x ∉ NLGEval.valid_metrics))).length ≠ 0 := by
    intro hz
    rw [List.length_eq_zero] at hz
    rw [hz] at hmem
    simp at hmem
  have hinit : NLGEval.init (some toOmit) =
      Except.error (toOmit.filter (fun x => decide (x ∉ NLGEval.valid_metrics))) := by
    unfold NLGEval.init
    simp only [Option.getD]
    rw [if_neg hne]
  exact ⟨hinit, fun l h => by rw [hinit] at h; cases h⟩

theorem claim_C4_unrecognized_omission_witness :
    NLGEval.init (some ["Bleu_5"]) = Except.error ["Bleu_5"] :=
  (claim_C4_unrecognized_omission ["Bleu_5"] "Bleu_5" (by decide) (by decide)).1

/-- C5: for every corpus-batch input whose hypothesis count differs
from the count of aligned (transposed) reference sets, both the
`NLGEval.compute_metrics` method and the module-level `compute_metrics`
fail with the assertion error, with an empty event trace (no metric's
`compute_score` is invoked) and no Score Report. -/
theorem claim_C5_alignment_mismatch {ε α : Type} (scorers : List MetricDescriptor)
    (beh : Behavior ε α) (refList : List (List String)) (hypList : List String)
    (h : (pyZipAll refList).length ≠ hypList.length) :
    NLGEval.compute_metrics scorers beh refList hypList =
      ([], Except.error EvalErr.assertionError) ∧
    compute_metrics beh hypList refList = ([], Except.error EvalErr.assertionError) := by
  have h1 : ¬ (alignRefsBatch refList).length = (alignHypsBatch hypList).length := by
    simpa [alignRefsBatch, alignHypsBatch] using h
  constructor
  · unfold NLGEval.compute_metrics
    rw [if_neg h1]
  · unfold compute_metrics
    rw [if_neg h1]

theorem claim_C5_alignment_mismatch_witness :
    NLGEval.compute_metrics legacyScorers behW [["a"], ["b"]] ["x", "y"] =
      ([], Except.error EvalErr.assertionError) :=
  (claim_C5_alignment_mismatch legacyScorers behW [["a"], ["b"]] ["x", "y"] (by decide)).1

theorem foldl_min_comm {α : Type} (rest : List (List α)) : ∀ a b : Nat,
    min a (rest.foldl (fun m s => min m s.length) b) =
      rest.foldl (fun m s => min m s.length) (min a b) := by
  induction rest with
  | nil => intro a b; rfl
  | cons s t ih =>
    intro a b
    simp only [List.foldl_cons]
    rw [ih, ← Nat.min_assoc]

theorem pyZipAll_length {α : Type} (l : List α) (rest : List (List α)) :
    (pyZipAll (l :: rest)).length = rest.foldl (fun m s => min m s.length) l.length := by
  induction rest generalizing l with
  | nil => simp [pyZipAll]
  | cons m t ih =>
    show (List.zipWith (fun x r => x :: r) l (pyZipAll (m :: t))).length = _
    rw [List.length_zipWith, ih m]
    simp only [List.foldl_cons]
    exact foldl_min_comm t l.length m.length

theorem getElem?_zipWith {α β γ : Type} (f : α → β → γ) (a : List α) (b : List β)
    (j : Nat) : (List.zipWith f a b)[j]? = (a[j]?).bind (fun x => (b[j]?).map (f x)) := by
  induction a generalizing b j with
  | nil => simp
  | cons x xs ih =>
    cases b with
    | nil => simp
    | cons y ys =>
      cases j with
      | zero => simp
      | succ n => simpa using ih ys n

theorem pyZipAll_getElem? {α : Type} (ll : List (List α)) (hne : ll ≠ []) (j : Nat) :
    (pyZipAll ll)[j]? = colAt ll j := by
  induction ll with
  | nil => exact absurd rfl hne
  | cons l rest ih =>
    cases rest with
    | nil =>
      show (l.map (fun x => [x]))[j]? = _
      rw [List.getElem?_map]
      show _ = (l[j]?).bind (fun x => (some []).map (fun xs => x :: xs))
      cases l[j]? <;> rfl
    | cons m t =>
      show (List.zipWith (fun x r => x :: r) l (pyZipAll (m :: t)))[j]? = _
      rw [getElem?_zipWith, ih (by simp)]
      rfl

/-- C10: transposing parallel reference sources silently truncates to
the shortest source — the transposed length is the minimum of the
source lengths, position `j` survives exactly when every source has a
`j`-th item (so items beyond the shortest source are dropped without
error) — and the batch size assertion compares the hypothesis count
against this truncated count. -/
theorem claim_C10_zip_truncation :
    (∀ (l : List String) (rest : List (List String)),
      (pyZipAll (l :: rest)).length = rest.foldl (fun m s => min m s.length) l.length) ∧
    (∀ (ll : List (List String)), ll ≠ [] → ∀ j : Nat,
      (pyZipAll ll)[j]? = colAt ll j) ∧
    (∀ (ε α : Type) (scorers : List MetricDescriptor) (beh : Behavior ε α)
       (refList : List (List String)) (hypList : List String),
      NLGEval.compute_metrics scorers beh refList hypList =
        if (pyZipAll refList).length = hypList.length then
          runScorers beh (alignRefsBatch refList) (alignHypsBatch hypList) scorers [] []
        else ([], Except.error EvalErr.assertionError)) := by
  refine ⟨pyZipAll_length, pyZipAll_getElem?, ?_⟩
  intro ε α scorers beh refList hypList
  unfold NLGEval.compute_metrics
  by_cases h : (pyZipAll refList).length = hypList.length
  · rw [if_pos h, if_pos (by simpa [alignRefsBatch, alignHypsBatch] using h)]
  · rw [if_neg h, if_neg (by simpa [alignRefsBatch, alignHypsBatch] using h)]

theorem claim_C10_zip_truncation_witness :
    (pyZipAll [["a", "b"], ["c"]]).length = 1 ∧
    (pyZipAll [["a", "b"], ["c"]])[0]? = colAt [["a", "b"], ["c"]] 0 ∧
    (pyZipAll [["a", "b"], ["c"]])[1]? = colAt [["a", "b"], ["c"]] 1 := by
  refine ⟨?_, claim_C10_zip_truncation.2.1 [["a", "b"], ["c"]] (by decide) 0,
    claim_C10_zip_truncation.2.1 [["a", "b"], ["c"]] (by decide) 1⟩
  rw [claim_C10_zip_truncation.1 ["a", "b"] [["c"]]]
  rfl

theorem scalarScorers_eq_filter (toOmit : List String) :
    scalarScorers toOmit =
      scalarCatalog.filter (fun d => decide (descName d ∉ toOmit)) := by
  by_cases h1 : "METEOR" ∈ toOmit <;> by_cases h2 : "ROUGE_L" ∈ toOmit <;>
    by_cases h3 : "CIDEr" ∈ toOmit <;> by_cases h4 : "SPICE" ∈ toOmit <;>
    simp [scalarScorers, scalarCatalog, descName, h1, h2, h3, h4]

theorem range_one_four : List.range' 1 4 = [1, 2, 3, 4] := rfl

/-- C1: if the first (lowest-index) omitted Bleu tier is `i`, the
constructed Active Metric List starts with a Bleu descriptor covering
exactly tiers `1..i-1` (no Bleu descriptor at all when `i = 1`),
whatever higher tiers are also named; with no Bleu tier omitted it
covers tiers `1..4`; and it continues with exactly the scalar metrics
(METEOR, ROUGE_L, CIDEr, SPICE, in that order) whose names are not in
the omission set. -/
theorem claim_C1_omission_cascade (toOmit : List String) :
    (∀ i : Nat, 1 ≤ i → i ≤ 4 → bleuName i ∈ toOmit →
      (∀ j : Nat, 1 ≤ j → j < i → bleuName j ∉ toOmit) →
      NLGEval.load_scorers toOmit =
        (if i = 1 then []
         else [⟨ScorerKind.bleu (i - 1), Method.names (bleuNames (i - 1))⟩]) ++
        scalarCatalog.filter (fun d => decide (descName d ∉ toOmit))) ∧
    ((∀ j : Nat, 1 ≤ j → j ≤ 4 → bleuName j ∉ toOmit) →
      NLGEval.load_scorers toOmit =
        ⟨ScorerKind.bleu 4, Method.names ["Bleu_1", "Bleu_2", "Bleu_3", "Bleu_4"]⟩ ::
        scalarCatalog.filter (fun d => decide (descName d ∉ toOmit))) := by
  constructor
  · intro i hi1 hi4 hmem hlow
    unfold NLGEval.load_scorers
    rw [scalarScorers_eq_filter]
    congr 1
    interval_cases i
    · unfold bleuScorers
      rw [range_one_four, List.find?_cons_of_pos _ (by simpa using hmem)]
      simp
    · have g1 : bleuName 1 ∉ toOmit := hlow 1 (by norm_num) (by norm_num)
      unfold bleuScorers
      rw [range_one_four, List.find?_cons_of_neg _ (by simpa using g1),
        List.find?_cons_of_pos _ (by simpa using hmem)]
      simp
    · have g1 : bleuName 1 ∉ toOmit := hlow 1 (by norm_num) (by norm_num)
      have g2 : bleuName 2 ∉ toOmit := hlow 2 (by norm_num) (by norm_num)
      unfold bleuScorers
      rw [range_one_four, List.find?_cons_of_neg _ (by simpa using g1),
        List.find?_cons_of_neg _ (by simpa using g2),
        List.find?_cons_of_pos _ (by simpa using hmem)]
      simp
    · have g1 : bleuName 1 ∉ toOmit := hlow 1 (by norm_num) (by norm_num)
      have g2 : bleuName 2 ∉ toOmit := hlow 2 (by norm_num) (by norm_num)
      have g3 : bleuName 3 ∉ toOmit := hlow 3 (by norm_num) (by norm_num)
      unfold bleuScorers
      rw [range_one_four, List.find?_cons_of_neg _ (by simpa using g1),
        List.find?_cons_of_neg _ (by simpa using g2),
        List.find?_cons_of_neg _ (by simpa using g3),
        List.find?_cons_of_pos _ (by simpa using hmem)]
      simp
  · intro hnone
    have g1 : bleuName 1 ∉ toOmit := hnone 1 (by norm_num) (by norm_num)
    have g2 : bleuName 2 ∉ toOmit := hnone 2 (by norm_num) (by norm_num)
    have g3 : bleuName 3 ∉ toOmit := hnone 3 (by norm_num) (by norm_num)
    have g4 : bleuName 4 ∉ toOmit := hnone 4 (by norm_num) (by norm_num)
    unfold NLGEval.load_scorers
    rw [scalarScorers_eq_filter]
    unfold bleuScorers
    rw [range_one_four, List.find?_cons_of_neg _ (by simpa using g1),
      List.find?_cons_of_neg _ (by simpa using g2),
      List.find?_cons_of_neg _ (by simpa using g3),
      List.find?_cons_of_neg _ (by simpa using g4)]
    simp

theorem claim_C1_omission_cascade_witness :
    NLGEval.load_scorers ["Bleu_3", "SPICE"] =
      [⟨ScorerKind.bleu 2, Method.names (bleuNames 2)⟩] ++
      scalarCatalog.filter
        (fun d => decide (descName d ∉ (["Bleu_3", "SPICE"] : List String))) := by
  have h := (claim_C1_omission_cascade ["Bleu_3", "SPICE"]).1 3 (by norm_num)
    (by norm_num) (by decide) (by intro j hj1 hj2; interval_cases j <;> decide)
  simpa using h

theorem dictKeys_map_replace {α : Type} (d : PyDict α) (k : String) (v : PyVal α) :
    dictKeys (d.map (fun p => if p.1 = k then (k, v) else p)) = dictKeys d := by
  induction d with
  | nil => rfl
  | cons p t ih =>
    by_cases h : p.1 = k
    · simpa [dictKeys, h] using ih
    · simpa [dictKeys, h] using ih

theorem mem_dictKeys_dictInsert {α : Type} (d : PyDict α) (k x : String) (v : PyVal α) :
    x ∈ dictKeys (dictInsert d k v) ↔ x ∈ dictKeys d ∨ x = k := by
  unfold dictInsert
  by_cases h : k ∈ dictKeys d
  · rw [if_pos h, dictKeys_map_replace]
    constructor
    · exact fun hx => Or.inl hx
    · rintro (hx | rfl)
      · exact hx
      · exact h
  · rw [if_neg h]
    simp [dictKeys]

theorem mem_dictKeys_insertZip {α : Type} (pairs : List (α × String)) (d : PyDict α)
    (x : String) :
    x ∈ dictKeys (insertZip d pairs) ↔ x ∈ dictKeys d ∨ x ∈ pairs.map Prod.snd := by
  induction pairs generalizing d with
  | nil => simp [insertZip]
  | cons p t ih =>
    show x ∈ dictKeys (insertZip (dictInsert d p.2 (PyVal.num p.1)) t) ↔ _
    rw [ih, mem_dictKeys_dictInsert]
    simp only [List.map_cons, List.mem_cons]
    tauto

theorem runScorers_keys {ε α : Type} (beh : Behavior ε α) (refs hyps : List (List String)) :
    ∀ (scorers : List MetricDescriptor) (acc : PyDict α) (tr : List Event),
    (∀ d ∈ scorers, honorsContract beh refs hyps d) →
    ∃ tr2 rep, runScorers beh refs hyps scorers acc tr = (tr2, Except.ok rep) ∧
      ∀ x, x ∈ dictKeys rep ↔ x ∈ dictKeys acc ∨ x ∈ declaredNames scorers := by
  intro scorers
  induction scorers with
  | nil =>
    intro acc tr _
    exact ⟨tr, acc, rfl, by simp [declaredNames]⟩
  | cons d rest ih =>
    intro acc tr hc
    have hd := hc d (List.mem_cons_self d rest)
    cases hm : d.method with
    | names ms =>
      simp only [honorsContract, hm] at hd
      obtain ⟨scores, hbeh, hlen⟩ := hd
      obtain ⟨tr2, rep, heq, hkeys⟩ :=
        ih (insertZip acc (scores.zip ms)) (tr ++ [Event.score d.scorer])
          (fun e he => hc e (List.mem_cons_of_mem d he))
      refine ⟨tr2, rep, ?_, ?_⟩
      · simp only [runScorers, hbeh, applyMethod, hm]
        exact heq
      · intro x
        rw [hkeys x, mem_dictKeys_insertZip,
          List.map_snd_zip scores ms (le_of_eq hlen.symm)]
        simp only [declaredNames, hm, List.flatMap_cons, methodNames, List.mem_append]
        tauto
    | name m =>
      simp only [honorsContract, hm] at hd
      obtain ⟨v, hbeh⟩ := hd
      obtain ⟨tr2, rep, heq, hkeys⟩ :=
        ih (dictInsert acc m v) (tr ++ [Event.score d.scorer])
          (fun e he => hc e (List.mem_cons_of_mem d he))
      refine ⟨tr2, rep, ?_, ?_⟩
      · simp only [runScorers, hbeh, applyMethod, hm]
        exact heq
      · intro x
        rw [hkeys x, mem_dictKeys_dictInsert]
        simp only [declaredNames, hm, List.flatMap_cons, methodNames, List.mem_append,
          List.mem_singleton]
        tauto

/-- C3: for a non-empty Active Metric List and a valid single-pair
input, provided every scorer honors the uniform contract (success,
with one score per declared name for vector descriptors), the
single-pair evaluation succeeds and the key set of the returned Score
Report is exactly the union of the declared sub-metric names — no
extra keys, no missing keys. -/
theorem claim_C3_report_completeness {ε α : Type} (scorers : List MetricDescriptor)
    (beh : Behavior ε α) (ref : List String) (hyp : String)
    (hne : scorers ≠ [])
    (hc : ∀ d ∈ scorers, honorsContract beh (alignRefsSingle ref) (alignHypsSingle hyp) d) :
    ∃ tr rep, NLGEval.compute_individual_metrics scorers beh ref hyp =
        (tr, Except.ok rep) ∧
      ∀ x, x ∈ dictKeys rep ↔ x ∈ declaredNames scorers := by
  obtain ⟨tr2, rep, heq, hkeys⟩ := runScorers_keys beh _ _ scorers [] [] hc
  exact ⟨tr2, rep, heq, fun x => by rw [hkeys x]; simp [dictKeys]⟩

theorem claim_C3_report_completeness_witness :
    ∃ tr rep, NLGEval.compute_individual_metrics legacyScorers behW ["r"] "h" =
        (tr, Except.ok rep) ∧
      ∀ x, x ∈ dictKeys rep ↔ x ∈ declaredNames legacyScorers := by
  apply claim_C3_report_completeness legacyScorers behW ["r"] "h" (by decide)
  intro d hd
  simp only [legacyScorers, List.mem_cons, List.not_mem_nil, or_false] at hd
  rcases hd with rfl | rfl | rfl | rfl | rfl
  · exact ⟨_, rfl, rfl⟩
  · exact ⟨_, rfl⟩
  · exact ⟨_, rfl⟩
  · exact ⟨_, rfl⟩
  · exact ⟨_, rfl⟩

theorem runScorersLegacy_trace_mono {ε α : Type} (beh : Behavior ε α)
    (refs hyps : List (List String)) :
    ∀ (scorers : List MetricDescriptor) (acc : PyDict α) (tr : List Event) (e : Event),
    e ∈ tr → e ∈ (runScorersLegacy beh refs hyps scorers acc tr).1 := by
  intro scorers
  induction scorers with
  | nil => intro acc tr e he; exact he
  | cons d rest ih =>
    intro acc tr e he
    cases hb : beh d.scorer refs hyps with
    | error err =>
      simp only [runScorersLegacy, hb]
      exact List.mem_append_left _ he
    | ok agg =>
      cases ha : applyMethod acc d.method agg with
      | none =>
        simp only [runScorersLegacy, hb, ha]
        exact List.mem_append_left _ he
      | some acc2 =>
        simp only [runScorersLegacy, hb, ha]
        apply ih
        by_cases hm : d.scorer = ScorerKind.meteor
        · rw [if_pos hm]
          exact List.mem_append_left _ (List.mem_append_left _ he)
        · rw [if_neg hm]
          exact List.mem_append_left _ he

theorem runScorers_no_close {ε α : Type} (beh : Behavior ε α)
    (refs hyps : List (List String)) :
    ∀ (scorers : List MetricDescriptor) (acc : PyDict α) (tr : List Event) (k : ScorerKind),
    Event.close k ∈ (runScorers beh refs hyps scorers acc tr).1 → Event.close k ∈ tr := by
  intro scorers
  induction scorers with
  | nil => intro acc tr k hk; exact hk
  | cons d rest ih =>
    intro acc tr k hk
    cases hb : beh d.scorer refs hyps with
    | error err =>
      simp only [runScorers, hb] at hk
      rcases List.mem_append.mp hk with h | h
      · exact h
      · simp at h
    | ok agg =>
      cases ha : applyMethod acc d.method agg with
      | none =>
        simp only [runScorers, hb, ha] at hk
        rcases List.mem_append.mp hk with h | h
        · exact h
        · simp at h
      | some acc2 =>
        simp only [runScorers, hb, ha] at hk
        rcases List.mem_append.mp (ih acc2 _ k hk) with h | h
        · exact h
        · simp at h

/-- C2 counterexample: in the legacy module-level
`compute_individual_metrics`, a raising Bleu `compute_score` makes the
call exit on the error path with no `close` invoked on the METEOR
scorer before the fresh scorer list is discarded, contradicting the
claim that release happens on every exit path. -/
theorem claim_C2_counterexample :
    (compute_individual_metrics behErrBleu (Sum.inr ["r"]) "h").2 =
      Except.error (EvalErr.scorer ()) ∧
    Event.close ScorerKind.meteor ∉
      (compute_individual_metrics behErrBleu (Sum.inr ["r"]) "h").1 := by
  constructor
  · rfl
  · decide

theorem runScorersLegacy_step_err {ε α : Type} {beh : Behavior ε α}
    {refs hyps : List (List String)} (d : MetricDescriptor)
    {rest : List MetricDescriptor} {acc : PyDict α} {tr : List Event} {e : ε}
    (hb : beh d.scorer refs hyps = Except.error e) :
    runScorersLegacy beh refs hyps (d :: rest) acc tr =
      (tr ++ [Event.score d.scorer], Except.error (EvalErr.scorer e)) := by
  simp only [runScorersLegacy, hb]

theorem runScorersLegacy_step_typeErr {ε α : Type} {beh : Behavior ε α}
    {refs hyps : List (List String)} (d : MetricDescriptor)
    {rest : List MetricDescriptor} {acc : PyDict α} {tr : List Event} {agg : PyVal α}
    (hb : beh d.scorer refs hyps = Except.ok agg)
    (ha : applyMethod acc d.method agg = none) :
    runScorersLegacy beh refs hyps (d :: rest) acc tr =
      (tr ++ [Event.score d.scorer], Except.error EvalErr.typeError) := by
  simp only [runScorersLegacy, hb, ha]

theorem runScorersLegacy_step_ok {ε α : Type} {beh : Behavior ε α}
    {refs hyps : List (List String)} (d : MetricDescriptor)
    {rest : List MetricDescriptor} {acc : PyDict α} {tr : List Event} {agg : PyVal α}
    {acc2 : PyDict α}
    (hb : beh d.scorer refs hyps = Except.ok agg)
    (ha : applyMethod acc d.method agg = some acc2) :
    runScorersLegacy beh refs hyps (d :: rest) acc tr =
      runScorersLegacy beh refs hyps rest acc2
        (if d.scorer = ScorerKind.meteor
         then tr ++ [Event.score d.scorer] ++ [Event.close ScorerKind.meteor]
         else tr ++ [Event.score d.scorer]) := by
  simp only [runScorersLegacy, hb, ha]

/-- C2 (amended): in the legacy module-level evaluation loop, `close`
on the METEOR scorer is invoked exactly when the Bleu scorer returns a
score list and the METEOR scorer's `compute_score` succeeds — i.e.
only on the success path up through METEOR, not on error exit paths —
and the `NLGEval` evaluator's method loop never invokes `close` on any
path at all. -/
theorem claim_C2_amended {ε α : Type} (beh : Behavior ε α) (refs hyps : List (List String)) :
    (Event.close ScorerKind.meteor ∈
        (runScorersLegacy beh refs hyps legacyScorers [] []).1 ↔
      (∃ bs, beh (ScorerKind.bleu 4) refs hyps = Except.ok (PyVal.vals bs)) ∧
      (∃ v, beh ScorerKind.meteor refs hyps = Except.ok v)) ∧
    (∀ (scorers : List MetricDescriptor) (acc : PyDict α) (tr : List Event)
       (k : ScorerKind),
      Event.close k ∈ (runScorers beh refs hyps scorers acc tr).1 →
        Event.close k ∈ tr) := by
  refine ⟨?_, runScorers_no_close beh refs hyps⟩
  simp only [legacyScorers]
  cases hb : beh (ScorerKind.bleu 4) refs hyps with
  | error err =>
    rw [runScorersLegacy_step_err
      (⟨ScorerKind.bleu 4, Method.names ["Bleu_1", "Bleu_2", "Bleu_3", "Bleu_4"]⟩ :
        MetricDescriptor) hb]
    constructor
    · intro h
      simp at h
    · rintro ⟨⟨bs, hbs⟩, -⟩
      exact Except.noConfusion hbs
  | ok agg =>
    cases agg with
    | num a =>
      rw [runScorersLegacy_step_typeErr
        (⟨ScorerKind.bleu 4, Method.names ["Bleu_1", "Bleu_2", "Bleu_3", "Bleu_4"]⟩ :
          MetricDescriptor) hb rfl]
      constructor
      · intro h
        simp at h
      · rintro ⟨⟨bs, hbs⟩, -⟩
        simp at hbs
    | vals bs =>
      rw [runScorersLegacy_step_ok
        (⟨ScorerKind.bleu 4, Method.names ["Bleu_1", "Bleu_2", "Bleu_3", "Bleu_4"]⟩ :
          MetricDescriptor) hb rfl, if_neg (by decide)]
      cases hm : beh ScorerKind.meteor refs hyps with
      | error err =>
        rw [runScorersLegacy_step_err
          (⟨ScorerKind.meteor, Method.name "METEOR"⟩ : MetricDescriptor) hm]
        constructor
        · intro h
          simp at h
        · rintro ⟨-, ⟨v, hv⟩⟩
          exact Except.noConfusion hv
      | ok v =>
        rw [runScorersLegacy_step_ok
          (⟨ScorerKind.meteor, Method.name "METEOR"⟩ : MetricDescriptor) hm rfl,
          if_pos rfl]
        refine iff_of_true ?_ ⟨⟨bs, rfl⟩, ⟨v, rfl⟩⟩
        apply runScorersLegacy_trace_mono
        simp

theorem claim_C2_amended_witness :
    Event.close ScorerKind.meteor ∈
      (runScorersLegacy behW [[pyStrip "r"]] [[pyStrip "h"]] legacyScorers [] []).1 :=
  (claim_C2_amended behW [[pyStrip "r"]] [[pyStrip "h"]]).1.mpr
    ⟨⟨List.replicate 4 0, rfl⟩, ⟨PyVal.num 0, rfl⟩⟩

theorem runScorersS_step_err {σ ε α : Type} {beh : SBehavior σ ε α}
    {refs hyps : List (List String)} (d : MetricDescriptor)
    {rest : List MetricDescriptor} {acc : PyDict α} {st : σ} {e : ε} {s2 : σ}
    (hb : beh d.scorer st refs hyps = (Except.error e, s2)) :
    runScorersS beh refs hyps (d :: rest) acc st =
      (Except.error (EvalErr.scorer e), s2) := by
  simp only [runScorersS, hb]

theorem runScorersS_step_typeErr {σ ε α : Type} {beh : SBehavior σ ε α}
    {refs hyps : List (List String)} (d : MetricDescriptor)
    {rest : List MetricDescriptor} {acc : PyDict α} {st : σ} {agg : PyVal α} {s2 : σ}
    (hb : beh d.scorer st refs hyps = (Except.ok agg, s2))
    (ha : applyMethod acc d.method agg = none) :
    runScorersS beh refs hyps (d :: rest) acc st =
      (Except.error EvalErr.typeError, s2) := by
  simp only [runScorersS, hb, ha]

theorem runScorersS_step_ok {σ ε α : Type} {beh : SBehavior σ ε α}
    {refs hyps : List (List String)} (d : MetricDescriptor)
    {rest : List MetricDescriptor} {acc : PyDict α} {st : σ} {agg : PyVal α} {s2 : σ}
    {acc2 : PyDict α}
    (hb : beh d.scorer st refs hyps = (Except.ok agg, s2))
    (ha : applyMethod acc d.method agg = some acc2) :
    runScorersS beh refs hyps (d :: rest) acc st =
      runScorersS beh refs hyps rest acc2 s2 := by
  simp only [runScorersS, hb, ha]

theorem runScorersS_fst_indep {σ ε α : Type} (beh : SBehavior σ ε α)
    (hdet : ∀ k s s' r h, (beh k s r h).1 = (beh k s' r h).1)
    (refs hyps : List (List String)) :
    ∀ (scorers : List MetricDescriptor) (acc : PyDict α) (st st' : σ),
      (runScorersS beh refs hyps scorers acc st).1 =
      (runScorersS beh refs hyps scorers acc st').1 := by
  intro scorers
  induction scorers with
  | nil => intro acc st st'; rfl
  | cons d rest ih =>
    intro acc st st'
    have h1 := hdet d.scorer st st' refs hyps
    rcases hb : beh d.scorer st refs hyps with ⟨r, s2⟩
    rcases hb' : beh d.scorer st' refs hyps with ⟨r2, s2'⟩
    rw [hb, hb'] at h1
    simp only at h1
    subst h1
    cases r with
    | error e =>
      rw [runScorersS_step_err d hb, runScorersS_step_err d hb']
    | ok agg =>
      cases ha : applyMethod acc d.method agg with
      | none =>
        rw [runScorersS_step_typeErr d hb ha, runScorersS_step_typeErr d hb' ha]
      | some acc2 =>
        rw [runScorersS_step_ok d hb ha, runScorersS_step_ok d hb' ha]
        exact ih acc2 s2 s2'

/-- C8: two consecutive invocations of single-pair evaluation on the
same evaluator (the scorer state of the first call threaded into the
second), under the hypothesis that each scorer's `compute_score`
result is a deterministic function of its arguments alone, produce
identical Score Report outcomes. -/
theorem claim_C8_determinism {σ ε α : Type} (scorers : List MetricDescriptor)
    (beh : SBehavior σ ε α) (ref : List String) (hyp : String) (st : σ)
    (hdet : ∀ k s s' r h, (beh k s r h).1 = (beh k s' r h).1) :
    (NLGEval.computeIndividualMetricsS scorers beh ref hyp
        ((NLGEval.computeIndividualMetricsS scorers beh ref hyp st).2)).1 =
      (NLGEval.computeIndividualMetricsS scorers beh ref hyp st).1 :=
  runScorersS_fst_indep beh hdet _ _ scorers [] _ st

theorem claim_C8_determinism_witness :
    (NLGEval.computeIndividualMetricsS legacyScorers behWS ["r"] "h"
        ((NLGEval.computeIndividualMetricsS legacyScorers behWS ["r"] "h" 0).2)).1 =
      (NLGEval.computeIndividualMetricsS legacyScorers behWS ["r"] "h" 0).1 :=
  claim_C8_determinism legacyScorers behWS ["r"] "h" 0 (fun _ _ _ _ _ => rfl)
